import Mathlib

/-!
Shallow embedding of the payment-crediting core of a Telegram storefront bot
(src/main.py).  The sqlite tables become lists of rows, the sequential handler
code becomes pure state-passing functions, the BlockCypher fetch and the
Telegram sends become explicit outcome parameters, and the Python floats
carrying LTC amounts are modelled as exact rationals (every amount appearing
in a concrete theorem below is exactly representable as a binary double, so
the rational model and the float code agree at those inputs).
-/

namespace DALI

/-- Row of the users table (init_db): tg_id, city, addr_index, ltc_address, created_at. -/
structure UserRow where
  tg_id : Int
  city : String
  addr_index : Int
  ltc_address : String
  created_at : Int
deriving DecidableEq

/-- Row of the balances table: tg_id, ltc, updated_at. -/
structure BalanceRow where
  tg_id : Int
  ltc : ℚ
  updated_at : Int
deriving DecidableEq

/-- Row of the credited_utx table; UNIQUE(address, tx_hash, value_sat) is the
de-duplication constraint, enforced in credit_output below. -/
structure CreditedRow where
  tg_id : Int
  address : String
  tx_hash : String
  value_sat : Int
  credited_at : Int
deriving DecidableEq

/-- Row of the orders table. -/
structure OrderRow where
  id : Int
  tg_id : Int
  product_id : Int
  amount_ltc : ℚ
  status : String
  created_at : Int
  paid_at : Option Int
deriving DecidableEq

/-- Row of the products table (the fields the purchase path reads). -/
structure Product where
  id : Int
  name : String
  price_ltc : ℚ
  is_active : Int
deriving DecidableEq

/-- The persistent sqlite state used by the crediting/purchase core. -/
structure ShopState where
  users : List UserRow
  balances : List BalanceRow
  credited : List CreditedRow
  orders : List OrderRow
deriving DecidableEq

def emptyState : ShopState := { users := [], balances := [], credited := [], orders := [] }

/-- SELECT from users WHERE tg_id equals the argument (first matching row). -/
def find_user (s : ShopState) (tg : Int) : Option UserRow :=
  s.users.find? (fun u => u.tg_id == tg)

/-- SELECT from balances WHERE tg_id equals the argument. -/
def find_balance (s : ShopState) (tg : Int) : Option BalanceRow :=
  s.balances.find? (fun b => b.tg_id == tg)

/-- next_address_index: SELECT MAX(addr_index) FROM users; mx + 1 when a row
exists, 0 when the table is empty. -/
def next_address_index (s : ShopState) : Int :=
  match s.users.map (fun u => u.addr_index) with
  | [] => 0
  | i :: is => is.foldl max i + 1

/-- ensure_user: when the user row is absent, read the next derivation index,
derive the address (the bip_utils derivation is the external capability
derive), and insert the user row (city CITIES[0], i.e. Buxoro) together with a
zero balance row. -/
def ensure_user (derive : Int → String) (now : Int) (s : ShopState) (tg : Int) : ShopState :=
  match find_user s tg with
  | some _ => s
  | none =>
      let idx := next_address_index s
      let addr := derive idx
      { s with
        users := s.users ++
          [{ tg_id := tg, city := "Buxoro", addr_index := idx, ltc_address := addr,
             created_at := now }],
        balances := s.balances ++ [{ tg_id := tg, ltc := 0, updated_at := now }] }

/-- get_user: ensure_user, then SELECT the row. -/
def get_user (derive : Int → String) (now : Int) (s : ShopState) (tg : Int) :
    ShopState × Option UserRow :=
  let s1 := ensure_user derive now s tg
  (s1, find_user s1 tg)

/-- get_balance_ltc: ensure_user, then read the ltc column. -/
def get_balance_ltc (derive : Int → String) (now : Int) (s : ShopState) (tg : Int) :
    ShopState × Option ℚ :=
  let s1 := ensure_user derive now s tg
  (s1, (find_balance s1 tg).map (fun b => b.ltc))

/-- add_balance_ltc: UPDATE balances SET ltc to ltc + amount WHERE tg_id matches. -/
def add_balance_ltc (now : Int) (s : ShopState) (tg : Int) (amount : ℚ) : ShopState :=
  { s with balances := s.balances.map fun b =>
      if b.tg_id == tg then { b with ltc := b.ltc + amount, updated_at := now } else b }

/-- sub_balance_ltc: UPDATE balances SET ltc to ltc - amount WHERE tg_id matches. -/
def sub_balance_ltc (now : Int) (s : ShopState) (tg : Int) (amount : ℚ) : ShopState :=
  { s with balances := s.balances.map fun b =>
      if b.tg_id == tg then { b with ltc := b.ltc - amount, updated_at := now } else b }

def sat_to_ltc (sat : Int) : ℚ := (sat : ℚ) / 100000000

/-- One BlockCypher txref; tx_input_n equal to -1 marks an incoming output. -/
structure TxRef where
  tx_input_n : Int
  tx_hash : String
  value : Int
  confirmations : Int
deriving DecidableEq

structure Output where
  tx_hash : String
  value : Int
  confirmations : Int
deriving DecidableEq

/-- fetch_incoming_outputs: the HTTP response (or any exception raised by the
request, the status check, or JSON parsing) is the resp parameter; the
function keeps exactly the incoming refs whose confirmations reach minConf
(MIN_CONFIRMATIONS). -/
def fetch_incoming_outputs (minConf : Int) (resp : Except Unit (List TxRef)) :
    Except Unit (List Output) :=
  match resp with
  | Except.error e => Except.error e
  | Except.ok txrefs =>
      Except.ok ((txrefs.filter
          (fun t => t.tx_input_n == -1 && !decide (t.confirmations < minConf))).map
        (fun t => { tx_hash := t.tx_hash, value := t.value, confirmations := t.confirmations }))

/-- Does any credited_utx row already carry this UNIQUE(address, tx_hash,
value_sat) key. -/
def credited_key_present (credited : List CreditedRow) (addr tx : String) (v : Int) : Bool :=
  credited.any (fun r => r.address == addr && r.tx_hash == tx && r.value_sat == v)

/-- Number of credited_utx rows carrying a given (address, tx_hash, value_sat) key. -/
def credited_count (credited : List CreditedRow) (addr tx : String) (v : Int) : Nat :=
  (credited.filter (fun r => r.address == addr && r.tx_hash == tx && r.value_sat == v)).length

/-- One iteration of the loop in credit_new_incoming_for_user: skip outputs
with value_sat at most 0, INSERT under the uniqueness constraint (an
IntegrityError continues the loop), and on a successful insert credit the
balance and count the output. -/
def credit_output (now : Int) (tg : Int) (addr : String)
    (acc : ShopState × Nat) (o : Output) : ShopState × Nat :=
  if o.value ≤ 0 then acc
  else if credited_key_present acc.1.credited addr o.tx_hash o.value then acc
  else
    let s1 := { acc.1 with credited := acc.1.credited ++
      [{ tg_id := tg, address := addr, tx_hash := o.tx_hash, value_sat := o.value,
         credited_at := now }] }
    (add_balance_ltc now s1 tg (sat_to_ltc o.value), acc.2 + 1)

/-- credit_new_incoming_for_user: get_user, fetch (a raised fetch exception
returns 0 new credits), then credit every new incoming output; returns the new
state and the number of credited outputs.  The none branch of the user lookup
is unreachable because ensure_user has just inserted the row. -/
def credit_new_incoming_for_user (derive : Int → String) (minConf : Int) (now : Int)
    (resp : Except Unit (List TxRef)) (s : ShopState) (tg : Int) : ShopState × Nat :=
  let s1 := ensure_user derive now s tg
  match find_user s1 tg with
  | none => (s1, 0)
  | some u =>
      match fetch_incoming_outputs minConf resp with
      | Except.error _ => (s1, 0)
      | Except.ok outs => outs.foldl (credit_output now tg u.ltc_address) (s1, 0)

/-- AUTOINCREMENT order id: one more than the largest existing id (1 when the
table is empty). -/
def next_order_id (s : ShopState) : Int :=
  match s.orders.map (fun o => o.id) with
  | [] => 1
  | i :: is => is.foldl max i + 1

/-- create_order_paid: INSERT an order with status PAID and paid_at set to now. -/
def create_order_paid (now : Int) (s : ShopState) (tg : Int) (pid : Int) (amount : ℚ) :
    ShopState × Int :=
  let oid := next_order_id s
  ({ s with orders := s.orders ++
      [{ id := oid, tg_id := tg, product_id := pid, amount_ltc := amount,
         status := "PAID", created_at := now, paid_at := some now }] }, oid)

inductive BuyResult where
  | unavailable : BuyResult
  | insufficient : BuyResult
  | purchased : Int → BuyResult
deriving DecidableEq

/-- The literal 1e-12 tolerance in the balance check of cb_buy. -/
def EPS : ℚ := 1 / 1000000000000

/-- cb_buy: look up the product, read the balance (get_balance_ltc, preceded
inside by ensure_user), reject when bal + 1e-12 is below the price, otherwise
debit the price and create an already-PAID order. -/
def cb_buy (derive : Int → String) (now : Int) (products : List Product)
    (s : ShopState) (tg : Int) (pid : Int) : ShopState × BuyResult :=
  match products.find? (fun p => p.id == pid) with
  | none => (s, BuyResult.unavailable)
  | some p =>
      if p.is_active != 1 then (s, BuyResult.unavailable)
      else
        let r := get_balance_ltc derive now s tg
        let bal := r.2.getD 0
        if bal + EPS < p.price_ltc then (r.1, BuyResult.insufficient)
        else
          let s2 := sub_balance_ltc now r.1 tg p.price_ltc
          let r2 := create_order_paid now s2 tg pid p.price_ltc
          (r2.1, BuyResult.purchased r2.2)

/-- External outcomes of one watcher step for one user: the BlockCypher fetch
result and whether bot.send_message succeeds. -/
structure TickInput where
  resp : Except Unit (List TxRef)
  notify_ok : Bool

/-- Insert keeping created_at descending (models ORDER BY created_at DESC). -/
def insertByCreatedDesc (u : UserRow) : List UserRow → List UserRow
  | [] => [u]
  | v :: vs => if v.created_at ≤ u.created_at then u :: v :: vs else v :: insertByCreatedDesc u vs

def sortByCreatedDesc : List UserRow → List UserRow
  | [] => []
  | u :: us => insertByCreatedDesc u (sortByCreatedDesc us)

/-- SELECT tg_id FROM users ORDER BY created_at DESC LIMIT 200. -/
def recent_user_ids (s : ShopState) : List Int :=
  ((sortByCreatedDesc s.users).take 200).map (fun u => u.tg_id)

/-- Per-user body of one deposit_watcher_loop iteration: credit, then when the
credited count is positive read the balance and send a notification; the send
is wrapped in its own try/except, so a failed send is swallowed and does not
undo the credit. -/
def tick_user (derive : Int → String) (minConf : Int) (now : Int)
    (inp : TickInput) (s : ShopState) (uid : Int) : Except Unit ShopState :=
  let r := credit_new_incoming_for_user derive minConf now inp.resp s uid
  if 0 < r.2 then
    let r2 := get_balance_ltc derive now r.1 uid
    match (if inp.notify_ok then Except.ok () else Except.error ()) with
    | Except.ok _ => Except.ok r2.1
    | Except.error _ => Except.ok r2.1
  else Except.ok r.1

/-- The scan body of one deposit_watcher_loop iteration over the recent users. -/
def scan_pass (derive : Int → String) (minConf : Int) (now : Int)
    (inputs : Int → TickInput) (s : ShopState) : Except Unit ShopState :=
  (recent_user_ids s).foldlM
    (fun st uid => tick_user derive minConf now (inputs uid) st uid) s

/-- The state tick_user produces (tick_user never actually errors). -/
def tick_user_state (derive : Int → String) (minConf : Int) (now : Int)
    (inp : TickInput) (s : ShopState) (uid : Int) : ShopState :=
  let r := credit_new_incoming_for_user derive minConf now inp.resp s uid
  if 0 < r.2 then (get_balance_ltc derive now r.1 uid).1 else r.1

/-- One full iteration including the outer try/except of deposit_watcher_loop. -/
def deposit_watcher_tick (derive : Int → String) (minConf : Int) (now : Int)
    (inputs : Int → TickInput) (s : ShopState) : ShopState :=
  match scan_pass derive minConf now inputs s with
  | Except.ok s1 => s1
  | Except.error _ => s

/-- n iterations of the while-True loop; each tick gets its own clock reading
and its own external outcomes. -/
def deposit_watcher_run (derive : Int → String) (minConf : Int)
    (times : Nat → Int) (inputs : Nat → Int → TickInput) :
    Nat → ShopState → ShopState
  | 0, s => s
  | n + 1, s =>
      deposit_watcher_tick derive minConf (times n) (inputs n)
        (deposit_watcher_run derive minConf times inputs n s)

/-- Phase of one in-flight ensure_user call, at the granularity the code
allows: the existence check plus the next_address_index read happen before the
INSERT (on separate sqlite connections), then the INSERT commits the row built
from the index read earlier. -/
inductive EnsurePhase where
  | ready : EnsurePhase
  | willInsert : Int → EnsurePhase
  | finished : EnsurePhase
deriving DecidableEq

structure EnsureTask where
  tg : Int
  phase : EnsurePhase
deriving DecidableEq

/-- One atomic step of an in-flight ensure_user.  No uniqueness constraint
guards addr_index in the schema, so the INSERT always succeeds. -/
def ensure_step (derive : Int → String) (now : Int) :
    ShopState × EnsureTask → ShopState × EnsureTask
  | (s, t) =>
    match t.phase with
    | EnsurePhase.ready =>
        match find_user s t.tg with
        | some _ => (s, { t with phase := EnsurePhase.finished })
        | none => (s, { t with phase := EnsurePhase.willInsert (next_address_index s) })
    | EnsurePhase.willInsert idx =>
        ({ s with
            users := s.users ++
              [{ tg_id := t.tg, city := "Buxoro", addr_index := idx,
                 ltc_address := derive idx, created_at := now }],
            balances := s.balances ++ [{ tg_id := t.tg, ltc := 0, updated_at := now }] },
         { t with phase := EnsurePhase.finished })
    | EnsurePhase.finished => (s, t)

/-- Interleaving of two concurrent ensure_user calls (a message handler on the
event loop against the asyncio.to_thread crediting pass): true schedules a
step of the first task, false a step of the second. -/
def ensure_interleave (derive : Int → String) (now : Int) :
    List Bool → ShopState × EnsureTask × EnsureTask → ShopState × EnsureTask × EnsureTask
  | [], st => st
  | b :: rest, (s, t1, t2) =>
      if b then
        let r := ensure_step derive now (s, t1)
        ensure_interleave derive now rest (r.1, r.2, t2)
      else
        let r := ensure_step derive now (s, t2)
        ensure_interleave derive now rest (r.1, t1, r.2)

/-- Durable (committed) database states of one credit_new_incoming_for_user
iteration on a fresh creditable output.  add_balance_ltc opens its own sqlite
connection and commits immediately, while the credited_utx INSERT lives on the
outer connection and becomes durable only at the final commit of the outer
connection.  The durable states are therefore: index 0 before anything
commits, index 1 after the balance commit (balance credited, de-dup row still
pending), index 2 after the outer commit. -/
def credit_commit_states (now : Int) (tg : Int) (addr : String) (o : Output)
    (s : ShopState) : List ShopState :=
  let withRow := { s with credited := s.credited ++
    [{ tg_id := tg, address := addr, tx_hash := o.tx_hash, value_sat := o.value,
       credited_at := now }] }
  [s, add_balance_ltc now s tg (sat_to_ltc o.value),
   add_balance_ltc now withRow tg (sat_to_ltc o.value)]

/-! Helper lemmas about the embedded operations. -/

lemma users_add_balance (now : Int) (s : ShopState) (tg : Int) (a : ℚ) :
    (add_balance_ltc now s tg a).users = s.users := rfl

lemma credited_add_balance (now : Int) (s : ShopState) (tg : Int) (a : ℚ) :
    (add_balance_ltc now s tg a).credited = s.credited := rfl

lemma orders_add_balance (now : Int) (s : ShopState) (tg : Int) (a : ℚ) :
    (add_balance_ltc now s tg a).orders = s.orders := rfl

lemma users_sub_balance (now : Int) (s : ShopState) (tg : Int) (a : ℚ) :
    (sub_balance_ltc now s tg a).users = s.users := rfl

lemma orders_sub_balance (now : Int) (s : ShopState) (tg : Int) (a : ℚ) :
    (sub_balance_ltc now s tg a).orders = s.orders := rfl

lemma ensure_user_of_found {s : ShopState} {tg : Int} {u : UserRow}
    (h : find_user s tg = some u) (derive : Int → String) (now : Int) :
    ensure_user derive now s tg = s := by
  unfold ensure_user
  rw [h]

lemma find?_append_of_none {α : Type} {p : α → Bool} {l1 l2 : List α}
    (h : l1.find? p = none) : (l1 ++ l2).find? p = l2.find? p := by
  induction l1 with
  | nil => rfl
  | cons a l ih =>
      cases hpa : p a with
      | true => simp [List.find?, hpa] at h
      | false =>
          simp only [List.cons_append, List.find?, hpa] at h ⊢
          exact ih h

lemma find_user_ensure (derive : Int → String) (now : Int) (s : ShopState) (tg : Int) :
    (find_user (ensure_user derive now s tg) tg).isSome := by
  unfold ensure_user
  cases h : find_user s tg with
  | some u => rw [h]; rfl
  | none =>
      unfold find_user at h ⊢
      simp only []
      rw [find?_append_of_none h]
      simp [List.find?]

lemma ensure_user_idem (derive : Int → String) (now now2 : Int) (s : ShopState) (tg : Int) :
    ensure_user derive now2 (ensure_user derive now s tg) tg = ensure_user derive now s tg := by
  cases h : find_user (ensure_user derive now s tg) tg with
  | some u => exact ensure_user_of_found h derive now2
  | none =>
      have := find_user_ensure derive now s tg
      rw [h] at this
      simp at this

lemma find?_map_update {l : List BalanceRow} {tg : Int} (f : BalanceRow → BalanceRow)
    (hf : ∀ b, (f b).tg_id = b.tg_id) :
    ((l.map fun b => if b.tg_id == tg then f b else b).find? fun b => b.tg_id == tg)
      = (l.find? fun b => b.tg_id == tg).map f := by
  induction l with
  | nil => rfl
  | cons b bs ih =>
      cases h : (b.tg_id == tg) with
      | true =>
          have hfb : ((f b).tg_id == tg) = true := by rw [hf]; exact h
          rw [List.map_cons, if_pos h]
          simp only [List.find?_cons, hfb, h]
          rfl
      | false =>
          rw [List.map_cons, if_neg (by simp [h])]
          simp only [List.find?_cons, h]
          exact ih

lemma find_balance_add (now : Int) (s : ShopState) (tg : Int) (a : ℚ) :
    find_balance (add_balance_ltc now s tg a) tg
      = (find_balance s tg).map fun b => { b with ltc := b.ltc + a, updated_at := now } := by
  unfold find_balance add_balance_ltc
  exact find?_map_update _ fun b => rfl

lemma find_balance_sub (now : Int) (s : ShopState) (tg : Int) (a : ℚ) :
    find_balance (sub_balance_ltc now s tg a) tg
      = (find_balance s tg).map fun b => { b with ltc := b.ltc - a, updated_at := now } := by
  unfold find_balance sub_balance_ltc
  exact find?_map_update _ fun b => rfl

lemma credit_output_of_nonpos {o : Output} (h : o.value ≤ 0)
    (now tg : Int) (addr : String) (acc : ShopState × Nat) :
    credit_output now tg addr acc o = acc := by
  simp [credit_output, h]

lemma credit_output_of_present {o : Output} {addr : String} {acc : ShopState × Nat}
    (h : credited_key_present acc.1.credited addr o.tx_hash o.value = true)
    (now tg : Int) :
    credit_output now tg addr acc o = acc := by
  simp [credit_output, h]

lemma credit_output_fresh {o : Output} {addr : String} {s : ShopState} {n : Nat}
    (hv : 0 < o.value)
    (h : credited_key_present s.credited addr o.tx_hash o.value = false)
    (now tg : Int) :
    credit_output now tg addr (s, n) o
      = (add_balance_ltc now
          { s with credited := s.credited ++
            [{ tg_id := tg, address := addr, tx_hash := o.tx_hash, value_sat := o.value,
               credited_at := now }] } tg (sat_to_ltc o.value), n + 1) := by
  simp [credit_output, not_le.mpr hv, h]

lemma credit_fold_users (now tg : Int) (addr : String) :
    ∀ (outs : List Output) (acc : ShopState × Nat),
      ((outs.foldl (credit_output now tg addr) acc).1).users = acc.1.users := by
  intro outs
  induction outs with
  | nil => intro acc; rfl
  | cons o os ih =>
      intro acc
      rw [List.foldl_cons, ih]
      unfold credit_output
      split
      · rfl
      split
      · rfl
      · rfl

lemma credit_fold_orders (now tg : Int) (addr : String) :
    ∀ (outs : List Output) (acc : ShopState × Nat),
      ((outs.foldl (credit_output now tg addr) acc).1).orders = acc.1.orders := by
  intro outs
  induction outs with
  | nil => intro acc; rfl
  | cons o os ih =>
      intro acc
      rw [List.foldl_cons, ih]
      unfold credit_output
      split
      · rfl
      split
      · rfl
      · rfl

lemma credit_pass_found {s : ShopState} {tg : Int} {u : UserRow}
    (hu : find_user s tg = some u) (derive : Int → String) (minConf now : Int)
    (resp : Except Unit (List TxRef)) :
    credit_new_incoming_for_user derive minConf now resp s tg
      = match fetch_incoming_outputs minConf resp with
        | Except.error _ => (s, 0)
        | Except.ok outs => outs.foldl (credit_output now tg u.ltc_address) (s, 0) := by
  unfold credit_new_incoming_for_user
  simp only [ensure_user_of_found hu, hu]

lemma fetch_ok_keep {minConf : Int} {t : TxRef}
    (hin : t.tx_input_n = -1) (hconf : minConf ≤ t.confirmations) :
    fetch_incoming_outputs minConf (Except.ok [t])
      = Except.ok
          [{ tx_hash := t.tx_hash, value := t.value, confirmations := t.confirmations }] := by
  have hd : decide (t.confirmations < minConf) = false := decide_eq_false (not_lt.mpr hconf)
  simp [fetch_incoming_outputs, List.filter_cons, hin, hd]

lemma fetch_ok_drop {minConf : Int} {t : TxRef}
    (hkeep : (t.tx_input_n == -1 && !decide (t.confirmations < minConf)) = false) :
    fetch_incoming_outputs minConf (Except.ok [t]) = Except.ok [] := by
  simp only [fetch_incoming_outputs, List.filter_cons, hkeep]
  rfl

lemma credited_key_present_append_self (cr : List CreditedRow) (tg now : Int)
    (addr tx : String) (v : Int) :
    credited_key_present
        (cr ++ [{ tg_id := tg, address := addr, tx_hash := tx, value_sat := v,
                  credited_at := now }]) addr tx v = true := by
  simp [credited_key_present, List.any_append]

lemma credited_count_append_self (cr : List CreditedRow) (tg now : Int)
    (addr tx : String) (v : Int) :
    credited_count
        (cr ++ [{ tg_id := tg, address := addr, tx_hash := tx, value_sat := v,
                  credited_at := now }]) addr tx v = credited_count cr addr tx v + 1 := by
  simp [credited_count, List.filter_append, List.filter_cons]

lemma credited_count_zero {cr : List CreditedRow} {addr tx : String} {v : Int}
    (h : credited_key_present cr addr tx v = false) :
    credited_count cr addr tx v = 0 := by
  unfold credited_key_present at h
  rw [List.any_eq_false] at h
  unfold credited_count
  rw [List.length_eq_zero, List.filter_eq_nil_iff]
  exact h

lemma credit_pass_single_fresh {s : ShopState} {tg : Int} {u : UserRow} {t : TxRef}
    (hu : find_user s tg = some u) {minConf : Int}
    (hin : t.tx_input_n = -1) (hconf : minConf ≤ t.confirmations) (hv : 0 < t.value)
    (hfresh : credited_key_present s.credited u.ltc_address t.tx_hash t.value = false)
    (derive : Int → String) (now : Int) :
    credit_new_incoming_for_user derive minConf now (Except.ok [t]) s tg
      = (add_balance_ltc now
          { s with credited := s.credited ++
            [{ tg_id := tg, address := u.ltc_address, tx_hash := t.tx_hash,
               value_sat := t.value, credited_at := now }] } tg (sat_to_ltc t.value), 1) := by
  rw [credit_pass_found hu, fetch_ok_keep hin hconf]
  simp only [List.foldl_cons, List.foldl_nil]
  exact credit_output_fresh hv hfresh now tg

lemma credit_pass_noop_of_present {s : ShopState} {tg : Int} {u : UserRow} {t : TxRef}
    (hu : find_user s tg = some u) {minConf : Int}
    (hpres : credited_key_present s.credited u.ltc_address t.tx_hash t.value = true)
    (derive : Int → String) (now : Int) :
    credit_new_incoming_for_user derive minConf now (Except.ok [t]) s tg = (s, 0) := by
  rw [credit_pass_found hu]
  by_cases hkeep : (t.tx_input_n == -1 && !decide (t.confirmations < minConf)) = true
  · have hf : fetch_incoming_outputs minConf (Except.ok [t])
        = Except.ok
            [{ tx_hash := t.tx_hash, value := t.value, confirmations := t.confirmations }] := by
      simp only [fetch_incoming_outputs, List.filter_cons, hkeep]
      rfl
    rw [hf]
    simp only [List.foldl_cons, List.foldl_nil]
    by_cases hv : t.value ≤ 0
    · have hv2 : (⟨t.tx_hash, t.value, t.confirmations⟩ : Output).value ≤ 0 := hv
      exact credit_output_of_nonpos hv2 now tg u.ltc_address (s, 0)
    · have hp2 : credited_key_present (s, (0 : Nat)).1.credited u.ltc_address
          (⟨t.tx_hash, t.value, t.confirmations⟩ : Output).tx_hash
          (⟨t.tx_hash, t.value, t.confirmations⟩ : Output).value = true := hpres
      exact credit_output_of_present hp2 now tg
  · have hk2 : (t.tx_input_n == -1 && !decide (t.confirmations < minConf)) = false := by
      simpa using hkeep
    rw [fetch_ok_drop hk2]
    rfl

lemma credit_pass_filtered_out {s : ShopState} {tg : Int} {u : UserRow} {t : TxRef}
    (hu : find_user s tg = some u) {minConf : Int}
    (hkeep : (t.tx_input_n == -1 && !decide (t.confirmations < minConf)) = false)
    (derive : Int → String) (now : Int) :
    credit_new_incoming_for_user derive minConf now (Except.ok [t]) s tg = (s, 0) := by
  rw [credit_pass_found hu, fetch_ok_drop hkeep]
  rfl

lemma find_user_congr (s1 s2 : ShopState) (h : s1.users = s2.users) (tg : Int) :
    find_user s1 tg = find_user s2 tg := by
  unfold find_user
  rw [h]

lemma foldl_credit_middle (now tg : Int) (addr : String) (l1 l2 : List Output)
    {o : Output} (hv : o.value ≤ 0) (acc : ShopState × Nat) :
    (l1 ++ o :: l2).foldl (credit_output now tg addr) acc
      = (l1 ++ l2).foldl (credit_output now tg addr) acc := by
  rw [List.foldl_append, List.foldl_append, List.foldl_cons,
    credit_output_of_nonpos hv now tg addr]

/-! Claim theorems. -/

/-- C7: A failed or malformed chain fetch makes the reconciliation pass for a
customer behave exactly as if there were no new sightings: the pass returns
zero credited outputs and produces the same state as a pass whose response
held no transactions (both only perform the ensure_user lookup), instead of
raising out of the scheduled poll; nothing is recorded, so the next tick
simply retries. -/
theorem claim7_fetch_failure_swallowed (derive : Int → String) (minConf now : Int)
    (e : Unit) (s : ShopState) (tg : Int) :
    credit_new_incoming_for_user derive minConf now (Except.error e) s tg
        = credit_new_incoming_for_user derive minConf now (Except.ok []) s tg ∧
    (credit_new_incoming_for_user derive minConf now (Except.error e) s tg).2 = 0 ∧
    (credit_new_incoming_for_user derive minConf now (Except.error e) s tg).1
        = ensure_user derive now s tg := by
  simp only [credit_new_incoming_for_user]
  cases h : find_user (ensure_user derive now s tg) tg <;>
    simp [h, fetch_incoming_outputs]

/-- C9: Address allocation is idempotent: after the first ensure_user the
assignment row is present, every later ensure_user for the same customer (at
any later time) leaves the state unchanged, and get_user then returns the very
same persisted row, hence the same address, without creating a new
assignment. -/
theorem claim9_allocation_idempotent (derive : Int → String) (now now2 : Int)
    (s : ShopState) (tg : Int) :
    (find_user (ensure_user derive now s tg) tg).isSome = true ∧
    ensure_user derive now2 (ensure_user derive now s tg) tg = ensure_user derive now s tg ∧
    get_user derive now2 (ensure_user derive now s tg) tg
      = (ensure_user derive now s tg, find_user (ensure_user derive now s tg) tg) := by
  refine ⟨find_user_ensure derive now s tg, ensure_user_idem derive now now2 s tg, ?_⟩
  simp only [get_user, ensure_user_idem derive now now2 s tg]

/-- C10: An observed output with value_sat at most zero is skipped by the
crediting pass: it is never credited, never recorded and never counted, so
removing it from the observed transaction list does not change the result of
credit_new_incoming_for_user at all. -/
theorem claim10_nonpositive_value_skipped (derive : Int → String) (minConf now : Int)
    (s : ShopState) (tg : Int) (refs1 refs2 : List TxRef) (t : TxRef)
    (hv : t.value ≤ 0) :
    credit_new_incoming_for_user derive minConf now (Except.ok (refs1 ++ t :: refs2)) s tg
      = credit_new_incoming_for_user derive minConf now (Except.ok (refs1 ++ refs2)) s tg := by
  simp only [credit_new_incoming_for_user]
  cases h : find_user (ensure_user derive now s tg) tg with
  | none => simp [h]
  | some u =>
      simp only [h, fetch_incoming_outputs]
      rw [List.filter_append, List.filter_append, List.filter_cons]
      by_cases hp : (t.tx_input_n == -1 && !decide (t.confirmations < minConf)) = true
      · rw [if_pos hp, List.map_append, List.map_cons, List.map_append]
        have hv2 : (⟨t.tx_hash, t.value, t.confirmations⟩ : Output).value ≤ 0 := hv
        exact foldl_credit_middle now tg u.ltc_address _ _ hv2 _
      · rw [if_neg hp]

/-- C1: No double credit: for a user with an existing assignment and a fresh
confirmed incoming sighting, the first pass inserts exactly one de-duplication
row for the (address, tx_hash, value_sat) triple and credits the balance by
its value once; afterwards any re-observation of the same triple, on any later
poll or manual check and with any confirmation count, is a no-op that credits
nothing, changes no balance and adds no row. -/
theorem claim1_no_double_credit (derive : Int → String) (minConf now now2 : Int)
    (s : ShopState) (tg : Int) (u : UserRow) (b : BalanceRow) (t : TxRef)
    (hu : find_user s tg = some u)
    (hb : find_balance s tg = some b)
    (hin : t.tx_input_n = -1) (hconf : minConf ≤ t.confirmations) (hv : 0 < t.value)
    (hfresh : credited_key_present s.credited u.ltc_address t.tx_hash t.value = false) :
    (credit_new_incoming_for_user derive minConf now (Except.ok [t]) s tg).2 = 1 ∧
    credited_count
        (credit_new_incoming_for_user derive minConf now (Except.ok [t]) s tg).1.credited
        u.ltc_address t.tx_hash t.value = 1 ∧
    (find_balance (credit_new_incoming_for_user derive minConf now (Except.ok [t]) s tg).1
        tg).map (fun x => x.ltc) = some (b.ltc + sat_to_ltc t.value) ∧
    ∀ t2 : TxRef, t2.tx_hash = t.tx_hash → t2.value = t.value →
      credit_new_incoming_for_user derive minConf now2 (Except.ok [t2])
          (credit_new_incoming_for_user derive minConf now (Except.ok [t]) s tg).1 tg
        = ((credit_new_incoming_for_user derive minConf now (Except.ok [t]) s tg).1, 0) := by
  have hpass := credit_pass_single_fresh hu hin hconf hv hfresh derive now
  refine ⟨by rw [hpass], ?_, ?_, ?_⟩
  · rw [hpass]
    show credited_count (add_balance_ltc now _ tg (sat_to_ltc t.value)).credited
      u.ltc_address t.tx_hash t.value = 1
    rw [credited_add_balance]
    show credited_count (s.credited ++ _) u.ltc_address t.tx_hash t.value = 1
    rw [credited_count_append_self, credited_count_zero hfresh]
  · rw [hpass]
    show (find_balance (add_balance_ltc now _ tg (sat_to_ltc t.value)) tg).map _ = _
    rw [find_balance_add]
    have : find_balance { s with credited := s.credited ++
        [{ tg_id := tg, address := u.ltc_address, tx_hash := t.tx_hash,
           value_sat := t.value, credited_at := now }] } tg = find_balance s tg := rfl
    rw [this, hb]
    rfl
  · intro t2 h2h h2v
    have hu1 : find_user (credit_new_incoming_for_user derive minConf now
        (Except.ok [t]) s tg).1 tg = some u := by
      rw [hpass]
      rw [find_user_congr _ s (by rw [users_add_balance]) tg]
      exact hu
    have hpres1 : credited_key_present (credit_new_incoming_for_user derive minConf now
        (Except.ok [t]) s tg).1.credited u.ltc_address t2.tx_hash t2.value = true := by
      rw [hpass, credited_add_balance, h2h, h2v]
      exact credited_key_present_append_self s.credited tg now u.ltc_address t.tx_hash t.value
    exact credit_pass_noop_of_present hu1 hpres1 derive now2

/-- C4: Confirmation gating: a sighting below MIN_CONFIRMATIONS is excluded by
the observer filter, so the pass that sees it credits nothing and changes no
state (the sighting is deferred, not recorded or rejected); when the same
sighting is later re-observed at or above the threshold it is credited exactly
once, and observing it yet again afterwards is a no-op. -/
theorem claim4_confirmation_gating (derive : Int → String) (minConf now1 now2 now3 : Int)
    (s : ShopState) (tg : Int) (u : UserRow) (t tc : TxRef)
    (hu : find_user s tg = some u)
    (hfresh : credited_key_present s.credited u.ltc_address t.tx_hash t.value = false)
    (hin : t.tx_input_n = -1) (hv : 0 < t.value)
    (hlow : t.confirmations < minConf)
    (hch : tc.tx_hash = t.tx_hash) (hcv : tc.value = t.value)
    (hcin : tc.tx_input_n = -1) (hcok : minConf ≤ tc.confirmations) :
    credit_new_incoming_for_user derive minConf now1 (Except.ok [t]) s tg = (s, 0) ∧
    (credit_new_incoming_for_user derive minConf now2 (Except.ok [tc]) s tg).2 = 1 ∧
    credited_count
        (credit_new_incoming_for_user derive minConf now2 (Except.ok [tc]) s tg).1.credited
        u.ltc_address t.tx_hash t.value = 1 ∧
    credit_new_incoming_for_user derive minConf now3 (Except.ok [tc])
        (credit_new_incoming_for_user derive minConf now2 (Except.ok [tc]) s tg).1 tg
      = ((credit_new_incoming_for_user derive minConf now2 (Except.ok [tc]) s tg).1, 0) := by
  have hcfresh : credited_key_present s.credited u.ltc_address tc.tx_hash tc.value = false := by
    rw [hch, hcv]; exact hfresh
  have hcvpos : 0 < tc.value := hcv ▸ hv
  have hpass := credit_pass_single_fresh hu hcin hcok hcvpos hcfresh derive now2
  refine ⟨?_, by rw [hpass], ?_, ?_⟩
  · have hk : (t.tx_input_n == -1 && !decide (t.confirmations < minConf)) = false := by
      simp [decide_eq_true hlow]
    exact credit_pass_filtered_out hu hk derive now1
  · rw [hpass]
    show credited_count (add_balance_ltc now2 _ tg (sat_to_ltc tc.value)).credited
      u.ltc_address t.tx_hash t.value = 1
    rw [credited_add_balance]
    show credited_count (s.credited ++ _) u.ltc_address t.tx_hash t.value = 1
    rw [hch, hcv, credited_count_append_self, credited_count_zero hfresh]
  · have hu1 : find_user (credit_new_incoming_for_user derive minConf now2
        (Except.ok [tc]) s tg).1 tg = some u := by
      rw [hpass]
      rw [find_user_congr _ s (by rw [users_add_balance]) tg]
      exact hu
    have hpres1 : credited_key_present (credit_new_incoming_for_user derive minConf now2
        (Except.ok [tc]) s tg).1.credited u.ltc_address tc.tx_hash tc.value = true := by
      rw [hpass, credited_add_balance]
      exact credited_key_present_append_self s.credited tg now2 u.ltc_address tc.tx_hash tc.value
    exact credit_pass_noop_of_present hu1 hpres1 derive now3

lemma next_order_id_congr (s1 s2 : ShopState) (h : s1.orders = s2.orders) :
    next_order_id s1 = next_order_id s2 := by
  unfold next_order_id
  rw [h]

lemma ensure_user_orders (derive : Int → String) (now : Int) (s : ShopState) (tg : Int) :
    (ensure_user derive now s tg).orders = s.orders := by
  unfold ensure_user
  cases find_user s tg <;> rfl

lemma get_balance_state (derive : Int → String) (now : Int) (s : ShopState) (tg : Int) :
    (get_balance_ltc derive now s tg).1 = ensure_user derive now s tg := rfl

lemma create_order_orders (now : Int) (s : ShopState) (tg pid : Int) (a : ℚ) :
    (create_order_paid now s tg pid a).1.orders
      = s.orders ++
        [{ id := next_order_id s, tg_id := tg, product_id := pid, amount_ltc := a,
           status := "PAID", created_at := now, paid_at := some now }] := rfl

/-- Computed shape of cb_buy when the product is found, active, and the
balance check passes. -/
lemma cb_buy_accept (derive : Int → String) (now : Int) (products : List Product)
    (s : ShopState) (tg pid : Int) (p : Product)
    (hp : products.find? (fun q => q.id == pid) = some p)
    (hact2 : (p.is_active != 1) = false)
    (hcond : ¬ (get_balance_ltc derive now s tg).2.getD 0 + EPS < p.price_ltc) :
    cb_buy derive now products s tg pid
      = ((create_order_paid now
            (sub_balance_ltc now (get_balance_ltc derive now s tg).1 tg p.price_ltc)
            tg pid p.price_ltc).1,
         BuyResult.purchased (create_order_paid now
            (sub_balance_ltc now (get_balance_ltc derive now s tg).1 tg p.price_ltc)
            tg pid p.price_ltc).2) := by
  simp [cb_buy, hp, hact2, hcond]

/-- C3 (amended): The debit check in cb_buy compares balance plus the literal
1e-12 tolerance against the price, sequentially (read then write): when
balance + 1e-12 is below the price the purchase is rejected as insufficient
funds with the state unchanged; otherwise the full price is debited, so the
resulting balance equals balance minus price, which is at least -1e-12 but —
contrary to the original claim — may be negative within that tolerance. -/
theorem claim3_amended (derive : Int → String) (now : Int) (products : List Product)
    (s : ShopState) (tg pid : Int) (p : Product) (u : UserRow) (b : BalanceRow)
    (hp : products.find? (fun q => q.id == pid) = some p)
    (hact : p.is_active = 1)
    (hu : find_user s tg = some u)
    (hb : find_balance s tg = some b) :
    (b.ltc + EPS < p.price_ltc →
        cb_buy derive now products s tg pid = (s, BuyResult.insufficient)) ∧
    (p.price_ltc ≤ b.ltc + EPS →
        (cb_buy derive now products s tg pid).2 = BuyResult.purchased (next_order_id s) ∧
        (find_balance (cb_buy derive now products s tg pid).1 tg).map (fun x => x.ltc)
          = some (b.ltc - p.price_ltc) ∧
        -EPS ≤ b.ltc - p.price_ltc) := by
  have hact2 : (p.is_active != 1) = false := by rw [hact]; rfl
  have hget : get_balance_ltc derive now s tg = (s, some b.ltc) := by
    simp [get_balance_ltc, ensure_user_of_found hu, hb]
  constructor
  · intro hlt
    simp [cb_buy, hp, hact2, hget, hlt]
  · intro hle
    have hcond := not_lt.mpr hle
    have hbuy : cb_buy derive now products s tg pid
        = ((create_order_paid now (sub_balance_ltc now s tg p.price_ltc) tg pid
              p.price_ltc).1,
           BuyResult.purchased (create_order_paid now (sub_balance_ltc now s tg p.price_ltc)
              tg pid p.price_ltc).2) := by
      simp [cb_buy, hp, hact2, hget, hcond]
    refine ⟨?_, ?_, by linarith⟩
    · rw [hbuy]
      show BuyResult.purchased (next_order_id (sub_balance_ltc now s tg p.price_ltc)) = _
      rw [next_order_id_congr _ s (orders_sub_balance now s tg p.price_ltc)]
    · rw [hbuy]
      show (find_balance (sub_balance_ltc now s tg p.price_ltc) tg).map (fun x => x.ltc) = _
      rw [find_balance_sub, hb]
      rfl

def wUser3 : UserRow :=
  { tg_id := 1, city := "Buxoro", addr_index := 0, ltc_address := "w0", created_at := 0 }

def wBal3 : BalanceRow := { tg_id := 1, ltc := 2, updated_at := 0 }

def wProduct3 : Product := { id := 1, name := "A", price_ltc := 1, is_active := 1 }

def wState3 : ShopState :=
  { users := [wUser3], balances := [wBal3], credited := [], orders := [] }

theorem claim3_amended_witness :
    (find_user wState3 1 = some wUser3 ∧ find_balance wState3 1 = some wBal3 ∧
     wProduct3.price_ltc ≤ wBal3.ltc + EPS) ∧
    (cb_buy (fun _ => "") 0 [wProduct3] wState3 1 1).2
      = BuyResult.purchased (next_order_id wState3) :=
  ⟨⟨rfl, rfl, by norm_num [wProduct3, wBal3, EPS]⟩,
   ((claim3_amended (fun _ => "") 0 [wProduct3] wState3 1 1 wProduct3 wUser3 wBal3
      rfl rfl rfl rfl).2 (by norm_num [wProduct3, wBal3, EPS])).1⟩

def cexProduct3 : Product :=
  { id := 1, name := "A", price_ltc := 1 / 2000000000000, is_active := 1 }

def cexProducts3 : List Product := [cexProduct3]

def cexState3 : ShopState :=
  { users := [{ tg_id := 1, city := "Buxoro", addr_index := 0, ltc_address := "c0",
                created_at := 0 }],
    balances := [{ tg_id := 1, ltc := 0, updated_at := 0 }], credited := [], orders := [] }

/-- C3 (counterexample): with a zero balance and a product priced 5e-13 LTC —
a price strictly greater than the balance, and both amounts exactly
representable as binary doubles — cb_buy does not reject the purchase: the
1e-12 tolerance lets it through and the resulting balance is negative. -/
theorem claim3_counterexample :
    (cb_buy (fun _ => "") 0 cexProducts3 cexState3 1 1).2 = BuyResult.purchased 1 ∧
    (find_balance (cb_buy (fun _ => "") 0 cexProducts3 cexState3 1 1).1 1).map
        (fun x => x.ltc) = some (-(1 / 2000000000000 : ℚ)) ∧
    (0 : ℚ) < 1 / 2000000000000 ∧ (-(1 / 2000000000000 : ℚ)) < 0 := by
  have hp : cexProducts3.find? (fun q => q.id == (1 : Int)) = some cexProduct3 := rfl
  have hact2 : (cexProduct3.is_active != 1) = false := rfl
  have hget : get_balance_ltc (fun _ => "") 0 cexState3 1 = (cexState3, some 0) := rfl
  have hcond : ¬ (get_balance_ltc (fun _ => "") 0 cexState3 1).2.getD 0 + EPS
      < cexProduct3.price_ltc := by
    rw [hget]
    norm_num [EPS, cexProduct3]
  have hbuy := cb_buy_accept (fun _ => "") 0 cexProducts3 cexState3 1 1 _ hp hact2 hcond
  refine ⟨?_, ?_, by norm_num, by norm_num⟩
  · rw [hbuy]
    rfl
  · rw [hbuy]
    show (find_balance (sub_balance_ltc 0 (get_balance_ltc (fun _ => "") 0 cexState3 1).1 1
        cexProduct3.price_ltc) 1).map (fun x => x.ltc) = some (-(1 / 2000000000000 : ℚ))
    rw [find_balance_sub,
      show find_balance (get_balance_ltc (fun _ => "") 0 cexState3 1).1 1
        = some { tg_id := 1, ltc := 0, updated_at := 0 } from rfl]
    norm_num [cexProduct3]

/-- C5 (amended): Creating an order on purchase always produces an order whose
status is PAID from the moment of insertion (paid_at set at creation); there
is no PENDING state anywhere, and no operation of the core ever rewrites an
existing order row — orders are only appended — so there is trivially no
transition out of PAID. -/
theorem claim5_amended (derive : Int → String) (minConf now : Int)
    (resp : Except Unit (List TxRef)) (products : List Product)
    (s : ShopState) (tg pid : Int) (amount : ℚ) :
    (create_order_paid now s tg pid amount).1.orders
        = s.orders ++
          [{ id := next_order_id s, tg_id := tg, product_id := pid, amount_ltc := amount,
             status := "PAID", created_at := now, paid_at := some now }] ∧
    (ensure_user derive now s tg).orders = s.orders ∧
    (credit_new_incoming_for_user derive minConf now resp s tg).1.orders = s.orders ∧
    ∃ tail, (cb_buy derive now products s tg pid).1.orders = s.orders ++ tail ∧
      ∀ o ∈ tail, o.status = "PAID" ∧ o.paid_at = some now := by
  refine ⟨rfl, ensure_user_orders derive now s tg, ?_, ?_⟩
  · simp only [credit_new_incoming_for_user]
    cases h : find_user (ensure_user derive now s tg) tg with
    | none => simp [h, ensure_user_orders]
    | some u =>
        cases hr : fetch_incoming_outputs minConf resp with
        | error e => simp [h, hr, ensure_user_orders]
        | ok outs =>
            simp only [h, hr]
            rw [credit_fold_orders]
            exact ensure_user_orders derive now s tg
  · cases hp : products.find? (fun q => q.id == pid) with
    | none =>
        refine ⟨[], ?_, by intro o ho; simp at ho⟩
        have hbuy : cb_buy derive now products s tg pid = (s, BuyResult.unavailable) := by
          simp [cb_buy, hp]
        rw [hbuy, List.append_nil]
    | some p =>
        by_cases hact : (p.is_active != 1) = true
        · refine ⟨[], ?_, by intro o ho; simp at ho⟩
          have hbuy : cb_buy derive now products s tg pid = (s, BuyResult.unavailable) := by
            simp [cb_buy, hp, hact]
          rw [hbuy, List.append_nil]
        · have hact2 : (p.is_active != 1) = false := by simpa using hact
          by_cases hcond : (get_balance_ltc derive now s tg).2.getD 0 + EPS < p.price_ltc
          · refine ⟨[], ?_, by intro o ho; simp at ho⟩
            have hbuy : cb_buy derive now products s tg pid
                = ((get_balance_ltc derive now s tg).1, BuyResult.insufficient) := by
              simp [cb_buy, hp, hact2, hcond]
            rw [hbuy, List.append_nil, get_balance_state]
            exact ensure_user_orders derive now s tg
          · refine
              ⟨[{ id := next_order_id (sub_balance_ltc now
                      (get_balance_ltc derive now s tg).1 tg p.price_ltc),
                  tg_id := tg, product_id := pid, amount_ltc := p.price_ltc,
                  status := "PAID", created_at := now, paid_at := some now }],
               ?_, ?_⟩
            · rw [cb_buy_accept derive now products s tg pid p hp hact2 hcond,
                create_order_orders, orders_sub_balance, get_balance_state,
                ensure_user_orders]
            · intro o ho
              simp only [List.mem_singleton] at ho
              rw [ho]
              exact ⟨rfl, rfl⟩

def cexProduct5 : Product := { id := 1, name := "A", price_ltc := 1, is_active := 1 }

def cexProducts5 : List Product := [cexProduct5]

def cexState5 : ShopState :=
  { users := [{ tg_id := 1, city := "Buxoro", addr_index := 0, ltc_address := "c5",
                created_at := 0 }],
    balances := [{ tg_id := 1, ltc := 1, updated_at := 0 }], credited := [], orders := [] }

/-- C5 (counterexample): a successful purchase creates its order with status
PAID, not PENDING — there is no pending stage at purchase initiation. -/
theorem claim5_counterexample :
    (cb_buy (fun _ => "") 0 cexProducts5 cexState5 1 1).2 = BuyResult.purchased 1 ∧
    ((cb_buy (fun _ => "") 0 cexProducts5 cexState5 1 1).1.orders.map
        (fun o => o.status)) = ["PAID"] ∧
    ("PAID" : String) ≠ "PENDING" := by
  have hp : cexProducts5.find? (fun q => q.id == (1 : Int)) = some cexProduct5 := rfl
  have hact2 : (cexProduct5.is_active != 1) = false := rfl
  have hget : get_balance_ltc (fun _ => "") 0 cexState5 1 = (cexState5, some 1) := rfl
  have hcond : ¬ (get_balance_ltc (fun _ => "") 0 cexState5 1).2.getD 0 + EPS
      < cexProduct5.price_ltc := by
    rw [hget]
    norm_num [EPS, cexProduct5]
  have hbuy := cb_buy_accept (fun _ => "") 0 cexProducts5 cexState5 1 1 _ hp hact2 hcond
  refine ⟨?_, ?_, by decide⟩
  · rw [hbuy]
    rfl
  · rw [hbuy]
    rfl

def bugState : ShopState :=
  { users := [{ tg_id := 1, city := "Buxoro", addr_index := 0, ltc_address := "a",
                created_at := 0 }],
    balances := [{ tg_id := 1, ltc := 0, updated_at := 0 }], credited := [], orders := [] }

/-- C2 (code bug): the de-duplication insert and the balance credit are not in
one atomic transaction.  add_balance_ltc runs and commits on its own sqlite
connection inside the loop, while the credited_utx INSERT becomes durable only
at the final commit of the outer connection; commit point 1 of credit_commit_states
is therefore a reachable durable state in which the balance is already
credited by a positive amount but the (address, tx_hash, value_sat) row is
absent — exactly the state the claim says is impossible.  A crash or a failed
outer commit there leaves a credited balance with no de-dup record, enabling a
double credit on the next poll. -/
theorem claim2_commit_not_atomic :
    (credit_commit_states 5 1 "a" { tx_hash := "t1", value := 100, confirmations := 1 }
        bugState).get? 1
      = some (add_balance_ltc 5 bugState 1 (sat_to_ltc 100)) ∧
    (find_balance (add_balance_ltc 5 bugState 1 (sat_to_ltc 100)) 1).map (fun x => x.ltc)
      = some (0 + sat_to_ltc 100) ∧
    (0 : ℚ) < 0 + sat_to_ltc 100 ∧
    credited_key_present (add_balance_ltc 5 bugState 1 (sat_to_ltc 100)).credited
        "a" "t1" 100 = false := by
  refine ⟨rfl, ?_, by norm_num [sat_to_ltc], rfl⟩
  rw [find_balance_add, show find_balance bugState 1
      = some { tg_id := 1, ltc := 0, updated_at := 0 } from rfl]
  rfl

lemma foldl_max_le_init (i : Int) (l : List Int) : i ≤ l.foldl max i := by
  induction l generalizing i with
  | nil => exact le_refl i
  | cons j js ih => exact le_trans (le_max_left i j) (ih (max i j))

lemma mem_le_foldl_max (i : Int) (l : List Int) : ∀ a ∈ l, a ≤ l.foldl max i := by
  induction l generalizing i with
  | nil => intro a ha; exact absurd ha (List.not_mem_nil a)
  | cons j js ih =>
      intro a ha
      rcases List.mem_cons.mp ha with rfl | h
      · exact le_trans (le_max_right i a) (foldl_max_le_init (max i a) js)
      · exact ih (max i j) a h

lemma lt_next_address_index {s : ShopState} {u : UserRow} (hu : u ∈ s.users) :
    u.addr_index < next_address_index s := by
  unfold next_address_index
  cases hl : s.users.map (fun x => x.addr_index) with
  | nil =>
      exfalso
      have hm := List.mem_map_of_mem (fun x => x.addr_index) hu
      rw [hl] at hm
      exact absurd hm (List.not_mem_nil _)
  | cons i is =>
      show u.addr_index < is.foldl max i + 1
      have hm : u.addr_index ∈ s.users.map (fun x => x.addr_index) :=
        List.mem_map_of_mem (fun x => x.addr_index) hu
      rw [hl] at hm
      rcases List.mem_cons.mp hm with h | h
      · have hle := foldl_max_le_init i is
        omega
      · have hle := mem_le_foldl_max i is _ h
        omega

lemma ensure_user_users_of_none {s : ShopState} {tg : Int} (h : find_user s tg = none)
    (derive : Int → String) (now : Int) :
    (ensure_user derive now s tg).users
      = s.users ++
        [{ tg_id := tg, city := "Buxoro", addr_index := next_address_index s,
           ltc_address := derive (next_address_index s), created_at := now }] := by
  unfold ensure_user
  rw [h]

/-- Sequential well-formedness of the users table: pairwise distinct
derivation indices, each address derived from its index. -/
def UsersWellFormed (derive : Int → String) (s : ShopState) : Prop :=
  (s.users.map (fun u => u.addr_index)).Nodup ∧
  ∀ u ∈ s.users, u.ltc_address = derive u.addr_index

/-- C6 (amended): in a sequential execution index assignment is strictly
increasing (every existing index is below the next one handed out, so an index
is never reused) and collision-free: ensure_user preserves well-formedness,
and in a well-formed table two distinct user rows never share an index nor —
when the derivation function is injective on the assigned indices — an
address.  The guarantee of the original claim under every concurrent interleaving
is false (see the counterexample): the index read and the insert are separate
steps on separate connections and no uniqueness constraint guards
addr_index. -/
theorem claim6_amended (derive : Int → String) (now : Int) (s : ShopState) (tg : Int)
    (hwf : UsersWellFormed derive s)
    (hinj : ∀ u1 ∈ (ensure_user derive now s tg).users,
        ∀ u2 ∈ (ensure_user derive now s tg).users,
          derive u1.addr_index = derive u2.addr_index → u1.addr_index = u2.addr_index) :
    (∀ u ∈ s.users, u.addr_index < next_address_index s) ∧
    UsersWellFormed derive (ensure_user derive now s tg) ∧
    (∀ u1 ∈ (ensure_user derive now s tg).users,
      ∀ u2 ∈ (ensure_user derive now s tg).users,
        u1 ≠ u2 → u1.addr_index ≠ u2.addr_index ∧ u1.ltc_address ≠ u2.ltc_address) := by
  have hwf2 : UsersWellFormed derive (ensure_user derive now s tg) := by
    cases h : find_user s tg with
    | some u =>
        rw [ensure_user_of_found h derive now]
        exact hwf
    | none =>
        constructor
        · rw [ensure_user_users_of_none h derive now, List.map_append, List.nodup_append]
          refine ⟨hwf.1, List.nodup_singleton _, ?_⟩
          intro a ha hb
          simp only [List.map_cons, List.map_nil, List.mem_singleton] at hb
          rcases List.mem_map.mp ha with ⟨u, hu, rfl⟩
          have hlt := lt_next_address_index hu
          omega
        · intro u hu
          rw [ensure_user_users_of_none h derive now] at hu
          rcases List.mem_append.mp hu with h1 | h1
          · exact hwf.2 u h1
          · simp only [List.mem_singleton] at h1
            rw [h1]
  refine ⟨fun u hu => lt_next_address_index hu, hwf2, ?_⟩
  intro u1 h1 u2 h2 hne
  constructor
  · intro heq
    exact hne (List.inj_on_of_nodup_map hwf2.1 h1 h2 heq)
  · intro haddr
    have e1 := hwf2.2 u1 h1
    have e2 := hwf2.2 u2 h2
    rw [e1, e2] at haddr
    exact hne (List.inj_on_of_nodup_map hwf2.1 h1 h2 (hinj u1 h1 u2 h2 haddr))

theorem claim6_amended_witness :
    UsersWellFormed (fun _ => "x") emptyState ∧
    UsersWellFormed (fun _ => "x") (ensure_user (fun _ => "x") 0 emptyState 1) :=
  ⟨⟨List.nodup_nil, fun u hu => absurd hu (List.not_mem_nil u)⟩,
   (claim6_amended (fun _ => "x") 0 emptyState 1
      ⟨List.nodup_nil, fun u hu => absurd hu (List.not_mem_nil u)⟩
      (fun u1 h1 u2 h2 _ => by
        rw [List.mem_singleton.mp h1, List.mem_singleton.mp h2])).2.1⟩

/-- C6 (counterexample): interleaving two concurrent ensure_user calls for the
distinct customers 1 and 2 — both read next_address_index before either
INSERT lands, which the code allows since the existence check, the index read
and the insert happen on separate sqlite connections and no uniqueness
constraint guards addr_index — ends with both customers holding derivation
index 0 and the same derived address, refuting the claim for that
interleaving. -/
theorem claim6_counterexample :
    ((ensure_interleave (fun _ => "x") 0 [true, false, true, false]
        (emptyState, { tg := 1, phase := EnsurePhase.ready },
         { tg := 2, phase := EnsurePhase.ready })).1.users.map
      (fun u => (u.tg_id, u.addr_index, u.ltc_address)))
      = [(1, 0, "x"), (2, 0, "x")] ∧ (1 : Int) ≠ 2 := by decide

lemma tick_user_eq (derive : Int → String) (minConf now : Int) (inp : TickInput)
    (s : ShopState) (uid : Int) :
    tick_user derive minConf now inp s uid
      = Except.ok (tick_user_state derive minConf now inp s uid) := by
  unfold tick_user tick_user_state
  cases hn : inp.notify_ok <;>
    by_cases h : 0 < (credit_new_incoming_for_user derive minConf now inp.resp s uid).2 <;>
      simp [hn, h]

lemma foldlM_ok {f : ShopState → Int → Except Unit ShopState}
    {g : ShopState → Int → ShopState}
    (hfg : ∀ s u, f s u = Except.ok (g s u)) :
    ∀ (l : List Int) (s : ShopState), l.foldlM f s = Except.ok (l.foldl g s) := by
  intro l
  induction l with
  | nil => intro s; rfl
  | cons a as ih =>
      intro s
      rw [List.foldlM_cons, hfg s a]
      show as.foldlM f (g s a) = Except.ok ((a :: as).foldl g s)
      rw [List.foldl_cons]
      exact ih (g s a)

/-- C8: The watcher loop body never raises: for every state, every fetch
outcome and every notification outcome (including all failing), scan_pass
returns Except.ok of the fold of per-user credit processing, so the outer
try/except never terminates the loop and — as the unfolding of deposit_watcher_run
states for every n — the next tick always runs; moreover the resulting state
is identical to the run in which every notification succeeds, so a failed
notification never rolls back a credit already applied. -/
theorem claim8_watcher_survives (derive : Int → String) (minConf now : Int)
    (inputs : Int → TickInput) (s : ShopState) :
    scan_pass derive minConf now inputs s
        = Except.ok ((recent_user_ids s).foldl
            (fun st uid => tick_user_state derive minConf now (inputs uid) st uid) s) ∧
    scan_pass derive minConf now inputs s
        = scan_pass derive minConf now
            (fun uid => { resp := (inputs uid).resp, notify_ok := true }) s ∧
    deposit_watcher_tick derive minConf now inputs s
        = (recent_user_ids s).foldl
            (fun st uid => tick_user_state derive minConf now (inputs uid) st uid) s ∧
    ∀ (times : Nat → Int) (allInputs : Nat → Int → TickInput) (n : Nat) (s0 : ShopState),
      deposit_watcher_run derive minConf times allInputs (n + 1) s0
        = deposit_watcher_tick derive minConf (times n) (allInputs n)
            (deposit_watcher_run derive minConf times allInputs n s0) := by
  have h1 : scan_pass derive minConf now inputs s
      = Except.ok ((recent_user_ids s).foldl
          (fun st uid => tick_user_state derive minConf now (inputs uid) st uid) s) :=
    foldlM_ok (fun st uid => tick_user_eq derive minConf now (inputs uid) st uid)
      (recent_user_ids s) s
  have h2 : scan_pass derive minConf now
      (fun uid => { resp := (inputs uid).resp, notify_ok := true }) s
      = Except.ok ((recent_user_ids s).foldl
          (fun st uid => tick_user_state derive minConf now
            { resp := (inputs uid).resp, notify_ok := true } st uid) s) :=
    foldlM_ok (fun st uid => tick_user_eq derive minConf now
        { resp := (inputs uid).resp, notify_ok := true } st uid)
      (recent_user_ids s) s
  refine ⟨h1, ?_, ?_, fun times allInputs n s0 => rfl⟩
  · rw [h1, h2]
    rfl
  · unfold deposit_watcher_tick
    rw [h1]

def w1User : UserRow :=
  { tg_id := 1, city := "Buxoro", addr_index := 0, ltc_address := "a1", created_at := 0 }

def w1Bal : BalanceRow := { tg_id := 1, ltc := 0, updated_at := 0 }

def w1State : ShopState :=
  { users := [w1User], balances := [w1Bal], credited := [], orders := [] }

def w1Tx : TxRef :=
  { tx_input_n := -1, tx_hash := "tx1", value := 100, confirmations := 1 }

theorem claim1_no_double_credit_witness :
    (find_user w1State 1 = some w1User ∧ find_balance w1State 1 = some w1Bal ∧
     w1Tx.tx_input_n = -1 ∧ (1 : Int) ≤ w1Tx.confirmations ∧ (0 : Int) < w1Tx.value ∧
     credited_key_present w1State.credited w1User.ltc_address w1Tx.tx_hash w1Tx.value
       = false) ∧
    (credit_new_incoming_for_user (fun _ => "") 1 10 (Except.ok [w1Tx]) w1State 1).2 = 1 :=
  ⟨⟨rfl, rfl, rfl, by decide, by decide, rfl⟩,
   (claim1_no_double_credit (fun _ => "") 1 10 11 w1State 1 w1User w1Bal w1Tx
      rfl rfl rfl (by decide) (by decide) rfl).1⟩

def w4TxLow : TxRef :=
  { tx_input_n := -1, tx_hash := "tx1", value := 100, confirmations := 0 }

theorem claim4_confirmation_gating_witness :
    (find_user w1State 1 = some w1User ∧ w4TxLow.confirmations < 1 ∧
     (1 : Int) ≤ w1Tx.confirmations ∧ w1Tx.tx_hash = w4TxLow.tx_hash ∧
     w1Tx.value = w4TxLow.value) ∧
    credit_new_incoming_for_user (fun _ => "") 1 10 (Except.ok [w4TxLow]) w1State 1
      = (w1State, 0) :=
  ⟨⟨rfl, by decide, by decide, rfl, rfl⟩,
   (claim4_confirmation_gating (fun _ => "") 1 10 11 12 w1State 1 w1User w4TxLow w1Tx
      rfl rfl rfl (by decide) (by decide) rfl rfl rfl (by decide)).1⟩

def w10Tx : TxRef :=
  { tx_input_n := -1, tx_hash := "tx0", value := 0, confirmations := 5 }

theorem claim10_nonpositive_value_skipped_witness :
    w10Tx.value ≤ 0 ∧
    credit_new_incoming_for_user (fun _ => "") 1 0 (Except.ok ([] ++ w10Tx :: []))
        emptyState 1
      = credit_new_incoming_for_user (fun _ => "") 1 0 (Except.ok ([] ++ []))
        emptyState 1 :=
  ⟨by decide,
   claim10_nonpositive_value_skipped (fun _ => "") 1 0 emptyState 1 [] [] w10Tx (by decide)⟩

end DALI
